import Mathlib

/-!
Verification of the cache / fetcher core of `mcp-docsrs`.

This file gives a shallow embedding, in Lean 4, of the two core components of
the repository:

* `src/cache.ts` — the SQLite-backed TTL/size-bounded key/value cache
  (`createCache`): the SQLite table `cache(key PRIMARY KEY, data, timestamp,
  ttl)` is modelled as a list of rows in rowid (insertion) order, and each
  prepared statement of the source is modelled by the corresponding pure
  list operation;
* `src/docs-fetcher.ts` — the docs.rs fetcher (`createDocsFetcher`):
  `buildJsonUrl`, the cache-then-network control flow of
  `fetchCrateJsonWithStatus`, and the `queryCacheDb` SELECT gate; and
* `src/errors.ts` — the error taxonomy (`JSONParseError`, `NetworkError`,
  `CrateNotFoundError`, `TimeoutError`, `DecompressionError`, `CacheError`),
  modelled as an inductive type, together with the message/context strings
  the constructors compute.

External runtime primitives that the source calls but does not define
(the SQLite statement engine for raw SQL text, `fetch`, `fzstd.decompress`,
`TextDecoder`, `JSON.parse`) are modelled as explicit parameters (oracles)
of the corresponding operations; JavaScript string primitives (`trim`,
`toUpperCase`, `startsWith`, number-to-string coercion) are modelled by
small executable Lean functions over `String.data`.

Time: every place the source calls `Date.now()` the model takes an explicit
`now : Nat` (milliseconds since epoch).
-/

namespace McpDocsrs

/-! ## JavaScript value and string primitives -/

/-- A JSON document, as produced by `JSON.parse`: the dynamic (`any`) payload
type of the source. -/
inductive Json where
  | null : Json
  | bool (b : Bool) : Json
  | num (n : Int) : Json
  | str (s : String) : Json
  | arr (elems : List Json) : Json
  | obj (fields : List (String × Json)) : Json

/-- JavaScript truthiness of a JSON value (`if (x)`). Falsy values among
JSON-parse results: `null`, `false`, `0`, `""`. -/
def Json.isTruthy : Json → Bool
  | .null => false
  | .bool b => b
  | .num n => n != 0
  | .str s => s != ""
  | .arr _ => true
  | .obj _ => true

/-- Whether `typeof x === "object"` holds for a JSON value: `null`, arrays and
objects have `typeof` equal to `"object"`. -/
def Json.typeofIsObject : Json → Bool
  | .null => true
  | .arr _ => true
  | .obj _ => true
  | _ => false

/-- JS `String.prototype.trim()` (over the ASCII whitespace the claims use):
drop whitespace from both ends. -/
def jsTrim (s : String) : String :=
  ⟨((s.data.dropWhile Char.isWhitespace).reverse.dropWhile Char.isWhitespace).reverse⟩

/-- JS `String.prototype.toUpperCase()` (ASCII range). -/
def jsToUpperCase (s : String) : String :=
  ⟨s.data.map Char.toUpper⟩

/-- JS `String.prototype.startsWith(p)`. -/
def jsStartsWith (s p : String) : Bool :=
  p.data.isPrefixOf s.data

/-- JS `String.prototype.substring(0, n)` composed with the template in
`JSONParseError`: the first `n` characters of `s`. -/
def jsTake (s : String) (n : Nat) : String :=
  ⟨s.data.take n⟩

/-! ## Error taxonomy, from `src/errors.ts`

Each constructor of the source is one constructor here, carrying the fields
the class stores.  `plainError` stands for a bare `new Error(message)` (as
thrown by `queryCacheDb`), which is *not* an `MCPDocsRsError` subclass; the
constructor tag models the JS `instanceof` distinctions the fetcher makes. -/

/-- The errors thrown by the cache/fetcher core. -/
inductive JsErr where
  /-- `JSONParseError(rawData, parseError, url?)`; `parseMsg` is the message of
  the underlying `SyntaxError`. The class stores the full `rawData` as a field. -/
  | jsonParseError (rawData : String) (parseMsg : String) (url : Option String)
  /-- `NetworkError(url, statusCode?, statusText?, details?)`. -/
  | networkError (url : String) (statusCode : Option Nat) (statusText : Option String)
      (details : Option String)
  /-- `CrateNotFoundError(crateName, version?)`. -/
  | crateNotFoundError (crateName : String) (version : Option String)
  /-- `TimeoutError(url, timeoutMs)`. -/
  | timeoutError (url : String) (timeoutMs : Nat)
  /-- `DecompressionError(url, encoding, details?)`. -/
  | decompressionError (url : String) (encoding : String) (details : String)
  /-- `CacheError(operation, details?)`. -/
  | cacheError (operation : String) (details : String)
  /-- A bare `new Error(message)`. -/
  | plainError (message : String)
deriving DecidableEq

/-- The `dataPreview` context field computed by the `JSONParseError`
constructor: `rawData.length > 200 ? rawData.substring(0, 200) + "..." :
rawData`. -/
def jsonParseErrorDataPreview (rawData : String) : String :=
  if rawData.length > 200 then jsTake rawData 200 ++ "..." else rawData

/-- The `dataLength` context field computed by the `JSONParseError`
constructor: `rawData.length`. -/
def jsonParseErrorDataLength (rawData : String) : Nat :=
  rawData.length

/-- The message computed by the `CacheError` constructor:
`Cache operation '<op>' failed: <details>`. -/
def cacheErrorMessage (operation details : String) : String :=
  "Cache operation '" ++ operation ++ "' failed: " ++ details

/-! ## The cache store, from `src/cache.ts`

The SQLite table `cache(key TEXT PRIMARY KEY, data TEXT, timestamp INTEGER,
ttl INTEGER)` is a list of rows in rowid order (rowids increase with
insertion; `INSERT OR REPLACE` deletes the conflicting row and appends a
fresh one).  The value column is kept at its deserialized type `α`
(`JSON.parse ∘ JSON.stringify` is the identity on the JSON-representable
values the store receives); `lenOf : α → Nat` stands for
`LENGTH(data)`, the length of the serialized text. -/

/-- One row of the `cache` table. -/
structure Entry (α : Type) where
  key : String
  data : α
  timestamp : Nat
  ttl : Nat
deriving DecidableEq, Repr

/-- The `cache` table: rows in rowid (insertion) order. -/
abbrev CacheState (α : Type) := List (Entry α)

/-- `DELETE FROM cache WHERE timestamp + ttl < ?` with `? = now`
(`cleanupExpired`). -/
def cleanupExpired (now : Nat) (st : CacheState α) : CacheState α :=
  st.filter (fun e => !decide (e.timestamp + e.ttl < now))

/-- `SELECT data, timestamp, ttl FROM cache WHERE key = ?` (`getStmt`):
the row for `key`, if any. -/
def getRow (key : String) (st : CacheState α) : Option (Entry α) :=
  st.find? (fun e => e.key == key)

/-- `DELETE FROM cache WHERE key = ?` (`deleteStmt`). -/
def deleteRow (key : String) (st : CacheState α) : CacheState α :=
  st.filter (fun e => e.key != key)

/-- `SELECT key FROM cache ORDER BY timestamp ASC LIMIT 1` (`oldestStmt`):
the row with the smallest `timestamp`, ties resolved to the earliest row in
storage order (as the `idx_cache_timestamp` index orders equal timestamps by
rowid). -/
def oldestRow : CacheState α → Option (Entry α) :=
  List.foldl
    (fun acc e =>
      match acc with
      | none => some e
      | some a => if e.timestamp < a.timestamp then some e else some a)
    none

/-- Result of `getWithMetadata`: the source returns `{data, isHit}` and
mutates the database; the model also returns the successor table state. -/
structure GetResult (α : Type) where
  data : Option α
  isHit : Bool
  state : CacheState α
deriving DecidableEq, Repr

/-- `getWithMetadata(key)` of `src/cache.ts` (storage-success path): run
`cleanupExpired`, look the key up, treat a row with
`Date.now() > timestamp + ttl` as a miss (deleting it), otherwise return a
hit. `now` stands for the `Date.now()` calls of the operation. -/
def getWithMetadata (now : Nat) (key : String) (st : CacheState α) : GetResult α :=
  let st1 := cleanupExpired now st
  match getRow key st1 with
  | none => ⟨none, false, st1⟩
  | some e =>
    if now > e.timestamp + e.ttl then ⟨none, false, deleteRow key st1⟩
    else ⟨some e.data, true, st1⟩

/-- `get(key)`: the `data` component of `getWithMetadata` (the model then
carries the successor state alongside). -/
def getValue (now : Nat) (key : String) (st : CacheState α) : Option α :=
  (getWithMetadata now key st).data

/-- `set(key, value, ttl)` of `src/cache.ts` (storage-success path): read
`COUNT(*)`; if it is at or above `maxSize`, delete the single oldest row (if
one exists); then `INSERT OR REPLACE` the new row, which removes any
conflicting row for `key` and appends a fresh row with timestamp
`Date.now()`. -/
def setValue (now maxSize : Nat) (key : String) (value : α) (ttl : Nat)
    (st : CacheState α) : CacheState α :=
  let count := st.length
  let st1 :=
    if count ≥ maxSize then
      match oldestRow st with
      | some oldest => deleteRow oldest.key st
      | none => st
    else st
  deleteRow key st1 ++ [⟨key, value, now, ttl⟩]

/-- `delete(key)` of `src/cache.ts` (storage-success path). -/
def removeValue (key : String) (st : CacheState α) : CacheState α :=
  deleteRow key st

/-- `clear()` of `src/cache.ts` (storage-success path). -/
def clearAll (_st : CacheState α) : CacheState α :=
  []

/-- `query(sql)` of `src/cache.ts`: run `cleanupExpired`, then hand the raw
statement text to the SQLite engine — the source applies **no** check of its
own to `sql`.  The engine is external to the repository and is modelled as
the oracle `exec`, which given the statement text and the table returns the
result rows and the successor table (or an error message); a failure is
wrapped as `CacheError("query", ...)`. -/
def queryOp (exec : String → CacheState α → Except String (List ρ × CacheState α))
    (now : Nat) (sql : String) (st : CacheState α) :
    Except JsErr (List ρ) × CacheState α :=
  let st1 := cleanupExpired now st
  match exec sql st1 with
  | .ok (rows, st2) => (.ok rows, st2)
  | .error msg =>
      (.error (.cacheError "query" ("Failed to execute query: " ++ msg)), st1)

/-- Result of `getStats()`. `oldestEntry` is `none` where the source returns
`null`. -/
structure CacheStats where
  totalEntries : Nat
  totalSize : Nat
  oldestEntry : Option Nat
deriving DecidableEq, Repr

/-- `SELECT MIN(timestamp) as oldest FROM cache`: `none` models SQL `NULL`
(empty table). -/
def minTimestamp : CacheState α → Option Nat :=
  List.foldl
    (fun acc e =>
      match acc with
      | none => some e.timestamp
      | some t => some (min t e.timestamp))
    none

/-- `getStats()` of `src/cache.ts` (storage-success path): `COUNT(*)`,
`SUM(LENGTH(data))` (with `|| 0` turning SQL `NULL` into 0), and
`MIN(timestamp)` — where `oldestResult.oldest ? ... : null` maps both SQL
`NULL` and the (falsy) timestamp `0` to `null`.  The operation runs **no**
`cleanupExpired` and reads no clock.  `lenOf` models `LENGTH(data)` on the
serialized text. -/
def getStats (lenOf : α → Nat) (st : CacheState α) : CacheStats :=
  { totalEntries := st.length
    totalSize := st.foldl (fun acc e => acc + lenOf e.data) 0
    oldestEntry :=
      match minTimestamp st with
      | none => none
      | some t => if t = 0 then none else some t }

/-! ## The docs fetcher, from `src/docs-fetcher.ts` -/

/-- `buildJsonUrl(crateName, version?, target?, formatVersion?)`:

* `url += "/" + (version || "latest")` — so an absent *or empty* version
  renders as `latest`;
* `if (target) url += "/" + target` — an absent or empty target is skipped;
* `url += "/json"`;
* `if (formatVersion) url += "/" + formatVersion` — an absent or zero
  format version is skipped (`0` is falsy); the number renders in decimal. -/
def buildJsonUrl (crateName : String) (version : Option String)
    (target : Option String) (formatVersion : Option Nat) : String :=
  "https://docs.rs/crate/" ++ crateName
    ++ "/" ++ (match version with
               | some v => if v = "" then "latest" else v
               | none => "latest")
    ++ (match target with
        | some t => if t = "" then "" else "/" ++ t
        | none => "")
    ++ "/json"
    ++ (match formatVersion with
        | some f => if f = 0 then "" else "/" ++ Nat.repr f
        | none => "")

/-- Outcome of the `fetch(url, ...)` call (the network is external to the
repository): the abort signal fired (`AbortError`), the transport failed with
some other error, or a response arrived.  A response carries the HTTP status,
status text, the `content-encoding` header, the binary body (for
`arrayBuffer()`), and the outcome of `text()`. -/
inductive NetOutcome where
  | aborted
  | transportError (message : String)
  | response (status : Nat) (statusText : String) (contentEncoding : Option String)
      (body : List Nat) (textResult : Except String String)

/-- `response.ok`: status in the range 200–299. -/
def statusOk (status : Nat) : Bool :=
  200 ≤ status && status < 300

/-- The external primitives one `fetchCrateJsonWithStatus` call consumes:
the network outcome, `fzstd.decompress` (error message on throw),
`TextDecoder().decode`, `JSON.parse` (`SyntaxError` message on throw),
`JSON.stringify`, and fault switches for the two cache statements the call
runs (`some msg` means the underlying storage throws with that message). -/
structure FetchOracle where
  net : NetOutcome
  decompressZstd : List Nat → Except String (List Nat)
  decodeUtf8 : List Nat → String
  parseJson : String → Except String Json
  stringifyJson : Json → String
  getFails : Option String := none
  setFails : Option String := none

/-- Resolved fetcher configuration (`createDocsFetcher` applies
`config.maxCacheSize || 100`, `config.requestTimeout || 30000`,
`config.cacheTtl || 3600000` before any fetch runs). -/
structure FetchConfig where
  maxCacheSize : Nat := 100
  requestTimeout : Nat := 30000
  cacheTtl : Nat := 3600000

/-- Result of one `fetchCrateJsonWithStatus` call: the returned value or
thrown error, the successor cache table, and whether control reached the
network call. -/
structure FetchOut where
  result : Except JsErr (Json × Bool)
  state : CacheState Json
  networkUsed : Bool

/-- The `let parsed` section of the `try` block: the zstd branch
(`arrayBuffer` → `fzstd.decompress` → `TextDecoder` → `JSON.parse`, with an
inner catch turning a non-`JSONParseError` throw into `DecompressionError`)
and the plain-text branch (`text()`, empty-body check, `JSON.parse`, with a
failing body read wrapped as a generic error that the outer catch then turns
into `NetworkError`). -/
def fetchParsePayload (decompressZstd : List Nat → Except String (List Nat))
    (decodeUtf8 : List Nat → String) (parseJson : String → Except String Json)
    (url : String) (contentEncoding : Option String)
    (body : List Nat) (textResult : Except String String) : Except JsErr Json :=
  if contentEncoding = some "zstd" || contentEncoding = some "Zstd" then
    match decompressZstd body with
    | .error msg => .error (.decompressionError url "zstd" msg)
    | .ok bytes =>
      let jsonText := decodeUtf8 bytes
      match parseJson jsonText with
      | .error parseMsg => .error (.jsonParseError jsonText parseMsg (some url))
      | .ok d => .ok d
  else
    match textResult with
    | .error msg =>
        .error (.networkError url none none
          (some ("Failed to read response body: " ++ msg)))
    | .ok responseText =>
      if responseText = "" || jsTrim responseText = "" then
        .error (.jsonParseError "" "Empty response body" (some url))
      else
        match parseJson responseText with
        | .error parseMsg =>
            .error (.jsonParseError responseText parseMsg (some url))
        | .ok d => .ok d

/-- The network-and-parse section of `fetchCrateJsonWithStatus` (the body of
the `try` after the cache miss): status checks, the payload parse, the
object validation, the cache write, and the `catch` that turns `AbortError`
into `TimeoutError`, re-throws the custom error classes, and wraps anything
else (including a `CacheError` from `cache.set`) as
`NetworkError(url, undefined, undefined, message)`. -/
def fetchNetworkPhase (cfg : FetchConfig) (o : FetchOracle) (now : Nat)
    (crateName : String) (version : Option String) (url : String)
    (st1 : CacheState Json) : FetchOut :=
  match o.net with
  | .aborted => ⟨.error (.timeoutError url cfg.requestTimeout), st1, true⟩
  | .transportError msg => ⟨.error (.networkError url none none (some msg)), st1, true⟩
  | .response status statusText contentEncoding body textResult =>
    if status = 404 then
      ⟨.error (.crateNotFoundError crateName version), st1, true⟩
    else if !statusOk status then
      ⟨.error (.networkError url (some status) (some statusText) none), st1, true⟩
    else
      match fetchParsePayload o.decompressZstd o.decodeUtf8 o.parseJson
          url contentEncoding body textResult with
      | .error e => ⟨.error e, st1, true⟩
      | .ok data =>
        if !data.isTruthy || !data.typeofIsObject then
          ⟨.error (.jsonParseError (o.stringifyJson data)
              "Response is not a valid object" (some url)), st1, true⟩
        else
          match o.setFails with
          | some msg =>
              ⟨.error (.networkError url none none
                  (some (cacheErrorMessage "set"
                    ("Failed to set key '" ++ url ++ "': " ++ msg)))), st1, true⟩
          | none =>
              ⟨.ok (data, false),
                setValue now cfg.maxCacheSize url data cfg.cacheTtl st1, true⟩

/-- `fetchCrateJsonWithStatus(crateName, version?, target?, formatVersion?)`
of `src/docs-fetcher.ts`: build the URL (which is the cache key), consult
`cache.getWithMetadata` — a thrown `CacheError` here is *outside* the `try`
and propagates unwrapped — return a cache hit if the cached value is truthy
(`if (cached)`), and otherwise run the network phase. -/
def fetchCrateJsonWithStatus (cfg : FetchConfig) (o : FetchOracle) (now : Nat)
    (crateName : String) (version : Option String) (target : Option String)
    (formatVersion : Option Nat) (st : CacheState Json) : FetchOut :=
  let url := buildJsonUrl crateName version target formatVersion
  match o.getFails with
  | some msg =>
      ⟨.error (.cacheError "get" ("Failed to get key '" ++ url ++ "': " ++ msg)),
        st, false⟩
  | none =>
    let g := getWithMetadata now url st
    match g.data with
    | some cached =>
      if cached.isTruthy then ⟨.ok (cached, true), g.state, false⟩
      else fetchNetworkPhase cfg o now crateName version url g.state
    | none => fetchNetworkPhase cfg o now crateName version url g.state

/-- `queryCacheDb(sql)` of `src/docs-fetcher.ts`:
`if (!sql || !sql.trim().toUpperCase().startsWith("SELECT")) throw new
Error("Only SELECT queries are allowed for safety")`, otherwise delegate to
`cache.query(sql)`.  The rejection happens before any database access. -/
def queryCacheDb (exec : String → CacheState α → Except String (List ρ × CacheState α))
    (now : Nat) (sql : String) (st : CacheState α) :
    Except JsErr (List ρ) × CacheState α :=
  if sql = "" || !jsStartsWith (jsToUpperCase (jsTrim sql)) "SELECT" then
    (.error (.plainError "Only SELECT queries are allowed for safety"), st)
  else
    queryOp exec now sql st

/-! ## Operation sequences on one store

`CacheOp` enumerates the state-changing operations of the public
`createCache` surface (the raw `query` escape hatch, whose effect is the
engine's, is treated separately via `queryOp`).  `runOp` applies one
operation to the table; a fresh store starts from the empty table. -/

/-- One call on the `createCache` surface, with the `Date.now()` values the
call observes. -/
inductive CacheOp (α : Type) where
  | get (now : Nat) (key : String)
  | set (now : Nat) (key : String) (value : α) (ttl : Nat)
  | remove (key : String)
  | clear
  | listSweep (now : Nat)

/-- Effect of one operation on the table (`listSweep` covers `listEntries`,
whose only state effect is its `cleanupExpired`). -/
def runOp (maxSize : Nat) (st : CacheState α) : CacheOp α → CacheState α
  | .get now key => (getWithMetadata now key st).state
  | .set now key value ttl => setValue now maxSize key value ttl st
  | .remove key => removeValue key st
  | .clear => clearAll st
  | .listSweep now => cleanupExpired now st

/-- Effect of a sequence of operations, first to last, on a fresh store. -/
def runOps (maxSize : Nat) (ops : List (CacheOp α)) : CacheState α :=
  ops.foldl (runOp maxSize) []

/-! ## Auxiliary definitions used by the statements below -/

/-- The first row for `key` that is live at `now` (`timestamp + ttl ≥ now`):
the row `getWithMetadata` can return a hit from. -/
def liveRow (now : Nat) (key : String) (st : CacheState α) : Option (Entry α) :=
  st.find? (fun e => e.key == key && !decide (e.timestamp + e.ttl < now))

/-- The `PRIMARY KEY` invariant of the SQLite table: no two rows share a key. -/
def nodupKeys (st : CacheState α) : Prop :=
  (st.map Entry.key).Nodup

/-- Numeric value of a most-significant-first list of decimal digit
characters (reads back what `Nat.repr` prints). -/
def valDigits (l : List Char) : Nat :=
  l.foldl (fun a c => 10 * a + (c.toNat - 48)) 0

/-- Validity of a crate name as a URL path component: no `/`. -/
def okCrate (c : String) : Prop :=
  '/' ∉ c.data

/-- Validity of the optional version parameter: absent, or a non-empty
slash-free string other than the `latest` sentinel the absent case renders
as. -/
def okVersion : Option String → Prop
  | none => True
  | some v => '/' ∉ v.data ∧ v ≠ "" ∧ v ≠ "latest"

/-- Validity of the optional target parameter: absent, or non-empty and
slash-free. -/
def okTarget : Option String → Prop
  | none => True
  | some t => '/' ∉ t.data ∧ t ≠ ""

/-- Validity of the optional format-version parameter: absent, or a nonzero
number (`0` is falsy and renders like absent). -/
def okFormat : Option Nat → Prop
  | none => True
  | some k => k ≠ 0

/-- Character list of the version fragment of `buildJsonUrl`
(`version || "latest"`). -/
def verData : Option String → List Char
  | some v => if v = "" then "latest".data else v.data
  | none => "latest".data

/-- Character list of the target fragment of `buildJsonUrl`
(`if (target) url += "/" + target`). -/
def targetData : Option String → List Char
  | some t => if t = "" then [] else '/' :: t.data
  | none => []

/-- Character list of the format-version fragment of `buildJsonUrl`
(`if (formatVersion) url += "/" + formatVersion`). -/
def fvData : Option Nat → List Char
  | some k => if k = 0 then [] else '/' :: (Nat.repr k).data
  | none => []

/-- The SQLite engine executing the statement text `DELETE FROM cache`:
every row is removed and no result rows are produced (used to observe what
`cache.query` does with a non-SELECT statement). -/
def execDeleteAll : String → CacheState String → Except String (List Unit × CacheState String)
  | "DELETE FROM cache", _ => .ok ([], [])
  | _, _ => .error "unsupported statement"

/-- An oracle for concrete fetch runs: a given network outcome, identity
decompression, trivial decoding/serialization, and a given `JSON.parse`. -/
def mkOracle (net : NetOutcome) (parse : String → Except String Json) : FetchOracle :=
  { net := net
    decompressZstd := fun b => .ok b
    decodeUtf8 := fun _ => ""
    parseJson := parse
    stringifyJson := fun _ => "" }

/-- A 300-character response body (not valid JSON). -/
def longRaw : String :=
  ⟨List.replicate 300 'a'⟩

/-! ## Helper lemmas: lists -/

theorem find?_append_of_none {p : α → Bool} {l₁ l₂ : List α} (h : l₁.find? p = none) :
    (l₁ ++ l₂).find? p = l₂.find? p := by
  induction l₁ with
  | nil => rfl
  | cons a l ih =>
    rw [List.cons_append]
    simp only [List.find?_cons] at h ⊢
    cases hpa : p a with
    | false => simp only [hpa] at h ⊢; exact ih h
    | true => simp [hpa] at h

theorem find?_filter_comm (p q : α → Bool) (l : List α) :
    (l.filter q).find? p = l.find? (fun a => p a && q a) := by
  induction l with
  | nil => rfl
  | cons a l ih =>
    simp only [List.filter_cons]
    cases hq : q a with
    | false => simp [List.find?_cons, hq, ih]
    | true =>
      cases hp : p a with
      | false => simp [List.find?_cons, hq, hp, ih]
      | true => simp [List.find?_cons, hq, hp]

theorem find?_conj_of_find? {p q : α → Bool} {l : List α} {a : α}
    (h : l.find? p = some a) (hq : q a = true) :
    l.find? (fun x => p x && q x) = some a := by
  induction l with
  | nil => simp at h
  | cons b l ih =>
    simp only [List.find?_cons] at h ⊢
    cases hpb : p b with
    | false => simp only [hpb, Bool.false_and] at h ⊢; exact ih h
    | true =>
      simp only [hpb] at h
      cases h
      simp [hpb, hq]

theorem foldl_add_init (f : α → Nat) (l : List α) (init : Nat) :
    l.foldl (fun acc e => acc + f e) init = init + (l.map f).sum := by
  induction l generalizing init with
  | nil => simp
  | cons a l ih => simp [ih, Nat.add_assoc]

/-- Splitting at a separator: if neither prefix contains `'/'`, then two
decompositions around a `'/'` agree. -/
theorem append_slash_inj {xs xs' ys ys' : List Char}
    (hx : '/' ∉ xs) (hx' : '/' ∉ xs')
    (h : xs ++ '/' :: ys = xs' ++ '/' :: ys') : xs = xs' ∧ ys = ys' := by
  induction xs generalizing xs' with
  | nil =>
    cases xs' with
    | nil => simpa using h
    | cons b tl =>
      simp only [List.nil_append, List.cons_append, List.cons.injEq] at h
      exact absurd (h.1 ▸ List.mem_cons_self b tl) hx'
  | cons a tl ih =>
    cases xs' with
    | nil =>
      simp only [List.nil_append, List.cons_append, List.cons.injEq] at h
      exact absurd (h.1 ▸ List.mem_cons_self a tl) hx
    | cons b tl' =>
      simp only [List.cons_append, List.cons.injEq] at h
      obtain ⟨rfl, h2⟩ := h
      have := ih (fun hm => hx (List.mem_cons_of_mem _ hm))
        (fun hm => hx' (List.mem_cons_of_mem _ hm)) h2
      exact ⟨by rw [this.1], this.2⟩

/-! ## Helper lemmas: the cache operations -/

theorem cleanupExpired_sublist (now : Nat) (st : CacheState α) :
    (cleanupExpired now st).Sublist st :=
  List.filter_sublist st

theorem mem_cleanupExpired {now : Nat} {st : CacheState α} {e : Entry α} :
    e ∈ cleanupExpired now st ↔ e ∈ st ∧ ¬(e.timestamp + e.ttl < now) := by
  simp [cleanupExpired, List.mem_filter]

/-- `getRow` after the expiry sweep finds the first live row for the key. -/
theorem getRow_cleanupExpired (now : Nat) (key : String) (st : CacheState α) :
    getRow key (cleanupExpired now st) = liveRow now key st := by
  simp only [getRow, cleanupExpired, liveRow]
  exact find?_filter_comm _ _ st

/-- A row returned by `liveRow` is indeed live at `now`. -/
theorem liveRow_live {now : Nat} {key : String} {st : CacheState α} {e : Entry α}
    (h : liveRow now key st = some e) :
    e.key = key ∧ ¬(e.timestamp + e.ttl < now) := by
  have := List.find?_some h
  simp only [Bool.and_eq_true, beq_iff_eq, Bool.not_eq_true', decide_eq_false_iff_not] at this
  exact this

/-- `getWithMetadata` never takes its inner delete branch (a row surviving
the sweep at `now` cannot also be strictly expired at `now`), so its
successor state is exactly the swept table. -/
theorem getWithMetadata_state (now : Nat) (key : String) (st : CacheState α) :
    (getWithMetadata now key st).state = cleanupExpired now st := by
  simp only [getWithMetadata, getRow_cleanupExpired]
  cases hfind : liveRow now key st with
  | none => rfl
  | some e =>
    have hlive := (liveRow_live hfind).2
    simp only
    rw [if_neg (by omega)]

/-- The value `getWithMetadata` returns is the data of the first live row
for the key. -/
theorem getWithMetadata_data (now : Nat) (key : String) (st : CacheState α) :
    (getWithMetadata now key st).data = (liveRow now key st).map Entry.data := by
  simp only [getWithMetadata, getRow_cleanupExpired]
  cases hfind : liveRow now key st with
  | none => rfl
  | some e =>
    have hlive := (liveRow_live hfind).2
    simp only
    rw [if_neg (by omega)]
    rfl

/-- Same fact for the hit flag. -/
theorem getWithMetadata_isHit (now : Nat) (key : String) (st : CacheState α) :
    (getWithMetadata now key st).isHit = (liveRow now key st).isSome := by
  simp only [getWithMetadata, getRow_cleanupExpired]
  cases hfind : liveRow now key st with
  | none => rfl
  | some e =>
    have hlive := (liveRow_live hfind).2
    simp only
    rw [if_neg (by omega)]
    rfl

theorem length_filter_lt {p : α → Bool} {l : List α} {x : α}
    (hx : x ∈ l) (hpx : p x = false) : (l.filter p).length < l.length := by
  induction l with
  | nil => cases hx
  | cons a l ih =>
    rcases List.mem_cons.mp hx with rfl | hmem
    · simp only [List.filter_cons, hpx, List.length_cons]
      exact Nat.lt_succ_of_le (List.length_filter_le p l)
    · simp only [List.filter_cons, List.length_cons]
      cases hpa : p a with
      | false => exact Nat.lt_succ_of_lt (ih hmem)
      | true => simpa using Nat.succ_lt_succ (ih hmem)

theorem oldestRow_foldl_aux (l : List (Entry α)) (a : Entry α) :
    ∃ r, List.foldl
        (fun acc e =>
          match acc with
          | none => some e
          | some a => if e.timestamp < a.timestamp then some e else some a)
        (some a) l = some r
      ∧ (r = a ∨ r ∈ l) ∧ r.timestamp ≤ a.timestamp
      ∧ ∀ e ∈ l, r.timestamp ≤ e.timestamp := by
  induction l generalizing a with
  | nil => exact ⟨a, rfl, Or.inl rfl, Nat.le_refl _, by intro e he; cases he⟩
  | cons b l ih =>
    by_cases hlt : b.timestamp < a.timestamp
    · obtain ⟨r, hr, hmem, hle, hall⟩ := ih b
      refine ⟨r, ?_, ?_, by omega, ?_⟩
      · simpa [hlt] using hr
      · rcases hmem with rfl | h
        · exact Or.inr (List.mem_cons_self _ _)
        · exact Or.inr (List.mem_cons_of_mem _ h)
      · intro e he
        rcases List.mem_cons.mp he with rfl | h
        · omega
        · exact hall e h
    · obtain ⟨r, hr, hmem, hle, hall⟩ := ih a
      refine ⟨r, ?_, ?_, hle, ?_⟩
      · simpa [hlt] using hr
      · rcases hmem with rfl | h
        · exact Or.inl rfl
        · exact Or.inr (List.mem_cons_of_mem _ h)
      · intro e he
        rcases List.mem_cons.mp he with rfl | h
        · omega
        · exact hall e h

/-- A non-empty table always has an oldest row, it is a row of the table,
and its timestamp is minimal. -/
theorem oldestRow_spec (st : CacheState α) (h : st ≠ []) :
    ∃ o, oldestRow st = some o ∧ o ∈ st ∧ ∀ e ∈ st, o.timestamp ≤ e.timestamp := by
  cases st with
  | nil => exact absurd rfl h
  | cons a l =>
    obtain ⟨r, hr, hmem, hle, hall⟩ := oldestRow_foldl_aux l a
    refine ⟨r, ?_, ?_, ?_⟩
    · simpa [oldestRow] using hr
    · rcases hmem with rfl | h'
      · exact List.mem_cons_self _ _
      · exact List.mem_cons_of_mem _ h'
    · intro e he
      rcases List.mem_cons.mp he with rfl | h'
      · exact hle
      · exact hall e h'

/-- Rows other than the one for `key` never satisfy the lookup predicate of
`liveRow`. -/
theorem liveRow_deleteRow_append (now : Nat) (key : String) (st : CacheState α)
    (e : Entry α) (he : e.key = key) :
    liveRow now key (deleteRow key st ++ [e])
      = if decide (e.timestamp + e.ttl < now) then none else some e := by
  unfold liveRow
  rw [find?_append_of_none]
  · cases hexp : decide (e.timestamp + e.ttl < now) with
    | false => simp [List.find?_cons, he, hexp]
    | true => simp [List.find?_cons, he, hexp]
  · rw [List.find?_eq_none]
    intro x hx
    simp only [deleteRow] at hx
    have hne := (List.mem_filter.mp hx).2
    simp only [bne_iff_ne, ne_eq] at hne
    simp [hne]

/-- The row `setValue` writes, looked up at time `now`: present and hit iff
not yet strictly expired. -/
theorem liveRow_setValue_same (st : CacheState α) (key : String) (v : α)
    (ttl createdAt M now : Nat) :
    liveRow now key (setValue createdAt M key v ttl st)
      = if createdAt + ttl < now then none else some ⟨key, v, createdAt, ttl⟩ := by
  unfold setValue
  rw [liveRow_deleteRow_append now key _ ⟨key, v, createdAt, ttl⟩ rfl]
  simp

/-- Bound on the table size after one `setValue`, for a positive capacity. -/
theorem setValue_length_le {M : Nat} (hM : 1 ≤ M) {st : CacheState α}
    (h : st.length ≤ M) (now : Nat) (key : String) (v : α) (ttl : Nat) :
    (setValue now M key v ttl st).length ≤ M := by
  unfold setValue
  by_cases hge : st.length ≥ M
  · have hlen : st.length = M := Nat.le_antisymm h hge
    have hne : st ≠ [] := by
      intro hnil
      rw [hnil] at hlen
      simp at hlen
      omega
    obtain ⟨o, ho, homem, _⟩ := oldestRow_spec st hne
    have h1 : (deleteRow o.key st).length < st.length := by
      apply length_filter_lt homem
      simp
    have h2 : (deleteRow key (deleteRow o.key st)).length ≤ (deleteRow o.key st).length :=
      List.length_filter_le _ _
    simp only [if_pos hge, ho, List.length_append, List.length_cons, List.length_nil]
    omega
  · have h2 : (deleteRow key st).length ≤ st.length := List.length_filter_le _ _
    simp only [if_neg hge, List.length_append, List.length_cons, List.length_nil]
    omega

/-- Every operation of the store surface preserves the capacity bound. -/
theorem runOp_length_le {M : Nat} (hM : 1 ≤ M) {st : CacheState α}
    (h : st.length ≤ M) (op : CacheOp α) : (runOp M st op).length ≤ M := by
  cases op with
  | get now key =>
    simp only [runOp, getWithMetadata_state]
    exact Nat.le_trans (List.length_filter_le _ _) h
  | set now key value ttl => exact setValue_length_le hM h now key value ttl
  | remove key => exact Nat.le_trans (List.length_filter_le _ _) h
  | clear => simp only [runOp, clearAll, List.length_nil]; exact Nat.zero_le M
  | listSweep now => exact Nat.le_trans (List.length_filter_le _ _) h

/-- The capacity bound holds after any operation sequence on a fresh store. -/
theorem runOps_length_le {M : Nat} (hM : 1 ≤ M) (ops : List (CacheOp α)) :
    (runOps M ops).length ≤ M := by
  suffices h : ∀ (st : CacheState α), st.length ≤ M → (ops.foldl (runOp M) st).length ≤ M by
    exact h [] (by simp only [List.length_nil]; exact Nat.le_trans (Nat.zero_le 1) hM)
  induction ops with
  | nil => intro st h; exact h
  | cons op ops ih =>
    intro st h
    exact ih _ (runOp_length_le hM h op)

/-! ## Helper lemmas: decimal rendering (`Nat.repr`, used by the URL) -/

theorem toDigitsCore_append (b f : Nat) : ∀ (n : Nat) (ds : List Char),
    Nat.toDigitsCore b f n ds = Nat.toDigitsCore b f n [] ++ ds := by
  induction f with
  | zero => intro n ds; simp [Nat.toDigitsCore]
  | succ f ih =>
    intro n ds
    simp only [Nat.toDigitsCore]
    by_cases h0 : n / b = 0
    · simp [h0]
    · simp only [if_neg h0]
      rw [ih (n / b) ((n % b).digitChar :: ds), ih (n / b) [(n % b).digitChar]]
      simp

theorem digitChar_sub48 {m : Nat} (h : m < 10) : (Nat.digitChar m).toNat - 48 = m := by
  interval_cases m <;> decide

theorem digitChar_isDigit {m : Nat} (h : m < 10) : (Nat.digitChar m).isDigit = true := by
  interval_cases m <;> decide

theorem valDigits_append_singleton (l : List Char) (c : Char) :
    valDigits (l ++ [c]) = 10 * valDigits l + (c.toNat - 48) := by
  simp [valDigits, List.foldl_append]

theorem toDigitsCore_val : ∀ {f n : Nat}, n < f →
    valDigits (Nat.toDigitsCore 10 f n []) = n := by
  intro f
  induction f with
  | zero => intro n h; omega
  | succ f ih =>
    intro n h
    simp only [Nat.toDigitsCore]
    by_cases h0 : n / 10 = 0
    · have hn : n < 10 := (Nat.div_eq_zero_iff (by norm_num)).mp h0
      simp only [h0, if_pos]
      simp [valDigits, Nat.mod_eq_of_lt hn, digitChar_sub48 hn]
    · simp only [if_neg h0]
      rw [toDigitsCore_append, valDigits_append_singleton]
      have hpos : 0 < n := by
        rcases Nat.eq_zero_or_pos n with rfl | hp
        · simp at h0
        · exact hp
      have hdiv : n / 10 < f := by
        have := Nat.div_lt_self hpos (by norm_num : 1 < 10)
        omega
      rw [ih hdiv, digitChar_sub48 (Nat.mod_lt n (by norm_num))]
      omega

theorem repr_val (n : Nat) : valDigits (Nat.repr n).data = n :=
  toDigitsCore_val (Nat.lt_succ_self n)

theorem repr_inj {m n : Nat} (h : Nat.repr m = Nat.repr n) : m = n := by
  have h2 := congrArg (fun s => valDigits s.data) h
  simp only [repr_val] at h2
  exact h2

theorem mem_toDigitsCore_isDigit : ∀ {f n : Nat} {ds : List Char} {c : Char},
    c ∈ Nat.toDigitsCore 10 f n ds → c ∈ ds ∨ c.isDigit = true := by
  intro f
  induction f with
  | zero => intro n ds c hmem; exact Or.inl hmem
  | succ f ih =>
    intro n ds c hmem
    simp only [Nat.toDigitsCore] at hmem
    by_cases h0 : n / 10 = 0
    · simp only [h0, if_pos] at hmem
      rcases List.mem_cons.mp hmem with rfl | hin
      · exact Or.inr (digitChar_isDigit (Nat.mod_lt n (by norm_num)))
      · exact Or.inl hin
    · simp only [if_neg h0] at hmem
      rcases ih hmem with hin | hd
      · rcases List.mem_cons.mp hin with rfl | hin2
        · exact Or.inr (digitChar_isDigit (Nat.mod_lt n (by norm_num)))
        · exact Or.inl hin2
      · exact Or.inr hd

theorem repr_all_digits {n : Nat} {c : Char} (h : c ∈ (Nat.repr n).data) :
    c.isDigit = true := by
  rcases mem_toDigitsCore_isDigit (f := n + 1) h with hin | hd
  · cases hin
  · exact hd

theorem repr_ne_nil (n : Nat) : (Nat.repr n).data ≠ [] := by
  show Nat.toDigitsCore 10 (n + 1) n [] ≠ []
  simp only [Nat.toDigitsCore]
  by_cases h0 : n / 10 = 0
  · simp [h0]
  · simp only [if_neg h0]
    rw [toDigitsCore_append]
    simp

theorem slash_not_mem_repr (n : Nat) : '/' ∉ (Nat.repr n).data := by
  intro h
  have := repr_all_digits h
  exact absurd this (by decide)

/-! ## Helper lemmas: the canonical URL -/

theorem slash_data : "/".data = ['/'] := rfl

theorem slashJson_data : "/json".data = '/' :: "json".data := rfl

/-- Shape of the canonical URL as a character list: the crate and version
segments are separated by `'/'`, and `"/json"` opens with `'/'`. -/
theorem buildJsonUrl_data (c : String) (v t : Option String) (f : Option Nat) :
    (buildJsonUrl c v t f).data
      = "https://docs.rs/crate/".data
          ++ (c.data
            ++ '/' :: (verData v
              ++ (targetData t ++ '/' :: ("json".data ++ fvData f)))) := by
  rcases v with _ | v <;> rcases t with _ | t <;> rcases f with _ | f <;>
    simp only [buildJsonUrl, verData, targetData, fvData, String.data_append,
      apply_ite String.data, slashJson_data, slash_data, List.append_assoc,
      List.singleton_append, List.nil_append] <;>
    simp [String.data_append, List.append_assoc, List.cons_append, List.nil_append]

theorem verData_no_slash {v : Option String} (h : okVersion v) : '/' ∉ verData v := by
  rcases v with _ | v
  · decide
  · obtain ⟨h1, h2, _⟩ := h
    simpa [verData, h2] using h1

theorem verData_inj {v v' : Option String} (h : okVersion v) (h' : okVersion v')
    (heq : verData v = verData v') : v = v' := by
  rcases v with _ | v <;> rcases v' with _ | v'
  · rfl
  · obtain ⟨_, h2, h3⟩ := h'
    rw [verData, verData, if_neg h2] at heq
    exact absurd (String.ext heq.symm) h3
  · obtain ⟨_, h2, h3⟩ := h
    rw [verData, verData, if_neg h2] at heq
    exact absurd (String.ext heq) h3
  · obtain ⟨_, h2, _⟩ := h
    obtain ⟨_, h2', _⟩ := h'
    rw [verData, if_neg h2, verData, if_neg h2'] at heq
    rw [String.ext heq]

theorem fvData_inj {f f' : Option Nat} (h : okFormat f) (h' : okFormat f')
    (heq : fvData f = fvData f') : f = f' := by
  rcases f with _ | k <;> rcases f' with _ | k'
  · rfl
  · rw [fvData, fvData, if_neg h'] at heq
    cases heq
  · rw [fvData, fvData, if_neg h] at heq
    cases heq
  · rw [fvData, if_neg h, fvData, if_neg h'] at heq
    have hdata : (Nat.repr k).data = (Nat.repr k').data := by
      simpa using heq
    rw [repr_inj (String.ext hdata)]

/-- The tail after the version segment determines the target: mixing a
present target on one side with an absent one on the other is impossible,
because a format-version fragment consists of digits and cannot look like
`json`. -/
theorem mixed_target_impossible {t₀ : String} {f f' : Option Nat}
    (ht : '/' ∉ t₀.data) (hf' : okFormat f')
    (heq : t₀.data ++ '/' :: ("json".data ++ fvData f)
        = "json".data ++ fvData f') : False := by
  rcases f' with _ | k'
  · rw [fvData] at heq
    have hmem : '/' ∈ "json".data ++ ([] : List Char) := by
      rw [← heq]
      exact List.mem_append_right _ (List.mem_cons_self _ _)
    revert hmem
    decide
  · rw [fvData, if_neg hf'] at heq
    obtain ⟨_, h2⟩ := append_slash_inj ht (by decide) heq
    have hj : 'j' ∈ (Nat.repr k').data := by
      rw [← h2]
      exact List.mem_append_left _ (by decide)
    have := repr_all_digits hj
    exact absurd this (by decide)

/-- Injectivity of the canonical URL on valid parameter tuples. -/
theorem buildJsonUrl_inj {c c' : String} {v v' t t' : Option String} {f f' : Option Nat}
    (hc : okCrate c) (hc' : okCrate c') (hv : okVersion v) (hv' : okVersion v')
    (ht : okTarget t) (ht' : okTarget t') (hf : okFormat f) (hf' : okFormat f')
    (h : buildJsonUrl c v t f = buildJsonUrl c' v' t' f') :
    c = c' ∧ v = v' ∧ t = t' ∧ f = f' := by
  have hd := congrArg String.data h
  rw [buildJsonUrl_data, buildJsonUrl_data] at hd
  have h1 := List.append_cancel_left hd
  obtain ⟨hcd, hR⟩ := append_slash_inj hc hc' h1
  rcases t with _ | t₀ <;> rcases t' with _ | t₀'
  · simp only [targetData, List.nil_append] at hR
    obtain ⟨hVeq, hW⟩ := append_slash_inj (verData_no_slash hv) (verData_no_slash hv') hR
    have hFv := List.append_cancel_left hW
    exact ⟨String.ext hcd, verData_inj hv hv' hVeq, rfl, fvData_inj hf hf' hFv⟩
  · obtain ⟨ht0s', ht0ne'⟩ := ht'
    simp only [targetData, if_neg ht0ne', List.cons_append, List.nil_append] at hR
    obtain ⟨hVeq, hW⟩ := append_slash_inj (verData_no_slash hv) (verData_no_slash hv') hR
    exact (mixed_target_impossible ht0s' hf hW.symm).elim
  · obtain ⟨ht0s, ht0ne⟩ := ht
    simp only [targetData, if_neg ht0ne, List.cons_append, List.nil_append] at hR
    obtain ⟨hVeq, hW⟩ := append_slash_inj (verData_no_slash hv) (verData_no_slash hv') hR
    exact (mixed_target_impossible ht0s hf' hW).elim
  · obtain ⟨ht0s, ht0ne⟩ := ht
    obtain ⟨ht0s', ht0ne'⟩ := ht'
    simp only [targetData, if_neg ht0ne, if_neg ht0ne', List.cons_append] at hR
    obtain ⟨hVeq, hW⟩ := append_slash_inj (verData_no_slash hv) (verData_no_slash hv') hR
    obtain ⟨htd, hJ⟩ := append_slash_inj ht0s ht0s' hW
    have hFv : fvData f = fvData f' := by simpa using hJ
    refine ⟨String.ext hcd, verData_inj hv hv' hVeq, ?_, fvData_inj hf hf' hFv⟩
    rw [String.ext htd]

/-! ## Helper lemmas: the fetch pipeline -/

/-- The network phase either fails and leaves the table untouched, or
succeeds on a truthy object, writes it with `setValue`, and returns it with
`fromCache := false`; every branch reports that the network was used. -/
theorem fetchNetworkPhase_split (cfg : FetchConfig) (o : FetchOracle) (now : Nat)
    (c : String) (v : Option String) (url : String) (st1 : CacheState Json) :
    (∃ e, fetchNetworkPhase cfg o now c v url st1 = ⟨.error e, st1, true⟩)
    ∨ (∃ d, d.isTruthy = true ∧ d.typeofIsObject = true ∧ o.setFails = none
        ∧ fetchNetworkPhase cfg o now c v url st1
            = ⟨.ok (d, false), setValue now cfg.maxCacheSize url d cfg.cacheTtl st1, true⟩) := by
  unfold fetchNetworkPhase
  rcases hn : o.net with _ | m | ⟨status, stx, enc, body, tr⟩
  · exact Or.inl ⟨_, rfl⟩
  · exact Or.inl ⟨_, rfl⟩
  · by_cases h404 : status = 404
    · simp only [if_pos h404]
      exact Or.inl ⟨_, rfl⟩
    · simp only [if_neg h404]
      by_cases hok : statusOk status = true
      · simp only [hok, Bool.not_true, Bool.false_eq_true, if_false]
        rcases hp : fetchParsePayload o.decompressZstd o.decodeUtf8 o.parseJson
            url enc body tr with e | d
        · exact Or.inl ⟨_, rfl⟩
        · by_cases hval : (!d.isTruthy || !d.typeofIsObject) = true
          · simp only [if_pos hval]
            exact Or.inl ⟨_, rfl⟩
          · simp only [if_neg hval]
            have hval2 : d.isTruthy = true ∧ d.typeofIsObject = true := by
              rcases hc1 : d.isTruthy <;> rcases hc2 : d.typeofIsObject <;>
                simp [hc1, hc2] at hval ⊢
            rcases hs : o.setFails with _ | m2
            · exact Or.inr ⟨d, hval2.1, hval2.2, rfl, rfl⟩
            · simp only [hs]
              exact Or.inl ⟨_, rfl⟩
      · rw [Bool.not_eq_true] at hok
        simp only [hok, Bool.not_false, if_true]
        exact Or.inl ⟨_, rfl⟩

/-- Every branch of the network phase reports that the network was used. -/
theorem fetchNetworkPhase_networkUsed (cfg : FetchConfig) (o : FetchOracle) (now : Nat)
    (c : String) (v : Option String) (url : String) (st1 : CacheState Json) :
    (fetchNetworkPhase cfg o now c v url st1).networkUsed = true := by
  rcases fetchNetworkPhase_split cfg o now c v url st1 with ⟨e, he⟩ | ⟨d, _, _, _, hd⟩
  · rw [he]
  · rw [hd]

/-- Top-level split of one fetch call (with working storage on the initial
lookup): either a truthy live row is returned from cache with no network
use, or the call runs the network phase on the swept table. -/
theorem fetch_split (cfg : FetchConfig) (o : FetchOracle) (now : Nat)
    (c : String) (v t : Option String) (f : Option Nat) (st : CacheState Json)
    (hget : o.getFails = none) :
    (∃ e, liveRow now (buildJsonUrl c v t f) st = some e ∧ e.data.isTruthy = true
        ∧ fetchCrateJsonWithStatus cfg o now c v t f st
            = ⟨.ok (e.data, true), cleanupExpired now st, false⟩)
    ∨ ((liveRow now (buildJsonUrl c v t f) st = none
          ∨ ∃ e, liveRow now (buildJsonUrl c v t f) st = some e ∧ e.data.isTruthy = false)
        ∧ fetchCrateJsonWithStatus cfg o now c v t f st
            = fetchNetworkPhase cfg o now c v (buildJsonUrl c v t f) (cleanupExpired now st)) := by
  have hd := getWithMetadata_data now (buildJsonUrl c v t f) st
  have hst := getWithMetadata_state now (buildJsonUrl c v t f) st
  unfold fetchCrateJsonWithStatus
  rw [hget]
  rcases hl : liveRow now (buildJsonUrl c v t f) st with _ | e
  · rw [hl] at hd
    simp only [Option.map_none'] at hd
    refine Or.inr ⟨Or.inl rfl, ?_⟩
    simp only [hd, hst]
  · rw [hl] at hd
    simp only [Option.map_some'] at hd
    by_cases htr : e.data.isTruthy = true
    · refine Or.inl ⟨e, rfl, htr, ?_⟩
      simp only [hd, htr, if_true, hst]
    · rw [Bool.not_eq_true] at htr
      refine Or.inr ⟨Or.inr ⟨e, rfl, htr⟩, ?_⟩
      simp only [hd, htr, Bool.false_eq_true, if_false, hst]

theorem find?_append_of_some {p : α → Bool} {l₁ l₂ : List α} {a : α}
    (h : l₁.find? p = some a) : (l₁ ++ l₂).find? p = some a := by
  induction l₁ with
  | nil => simp at h
  | cons b l ih =>
    rw [List.cons_append]
    rw [List.find?_cons] at h ⊢
    cases hpb : p b with
    | false => simp only [hpb] at h ⊢; exact ih h
    | true => simpa [hpb] using h

/-- With the `PRIMARY KEY` invariant, looking a member row up by its key
finds exactly that row. -/
theorem getRow_of_mem_nodup {l : CacheState α} (hnd : nodupKeys l) {e : Entry α}
    (he : e ∈ l) : getRow e.key l = some e := by
  induction l with
  | nil => cases he
  | cons a l ih =>
    rw [nodupKeys, List.map_cons, List.nodup_cons] at hnd
    rcases List.mem_cons.mp he with rfl | hm
    · simp [getRow, List.find?_cons]
    · have hne : (a.key == e.key) = false := by
        rw [beq_eq_false_iff_ne, ne_eq]
        intro hbeq
        exact hnd.1 (hbeq ▸ List.mem_map_of_mem Entry.key hm)
      rw [getRow, List.find?_cons]
      simp only [hne]
      exact ih hnd.2 hm

/-- Keys stay duplicate-free on any sublist of the table. -/
theorem nodupKeys_sublist {l₁ l₂ : CacheState α} (hs : l₁.Sublist l₂)
    (hnd : nodupKeys l₂) : nodupKeys l₁ :=
  List.Nodup.sublist (List.Sublist.map Entry.key hs) hnd

/-- If no live row for the key exists at `now`, none exists in the swept
table at any time `now2` either. -/
theorem liveRow_cleanup_none {now now2 : Nat} {key : String} {st : CacheState α}
    (h : liveRow now key st = none) : liveRow now2 key (cleanupExpired now st) = none := by
  rw [liveRow, cleanupExpired, find?_filter_comm, List.find?_eq_none]
  intro x hx hcontra
  rw [liveRow, List.find?_eq_none] at h
  have hx2 := h x hx
  simp only [Bool.and_eq_true] at hcontra hx2
  exact hx2 ⟨hcontra.1.1, hcontra.2⟩

/-- With duplicate-free keys, the live row for a key in the swept table is
either gone or the same row as before the sweep. -/
theorem liveRow_cleanup_of_some {now now2 : Nat} {key : String} {st : CacheState α}
    (hnd : nodupKeys st) {e : Entry α} (h : liveRow now key st = some e) :
    liveRow now2 key (cleanupExpired now st) = none
    ∨ liveRow now2 key (cleanupExpired now st) = some e := by
  induction st with
  | nil => simp [liveRow] at h
  | cons a l ih =>
    rw [nodupKeys, List.map_cons, List.nodup_cons] at hnd
    rw [liveRow, List.find?_cons] at h
    by_cases hpa : (a.key == key && !decide (a.timestamp + a.ttl < now)) = true
    · simp only [hpa] at h
      injection h with h2
      subst h2
      rw [Bool.and_eq_true] at hpa
      have hlive1 : (!decide (a.timestamp + a.ttl < now)) = true := hpa.2
      have hkeya : (a.key == key) = true := hpa.1
      rw [cleanupExpired, List.filter_cons, if_pos hlive1]
      rw [liveRow, List.find?_cons]
      by_cases hlive2 : (!decide (a.timestamp + a.ttl < now2)) = true
      · right
        simp [hkeya, hlive2]
      · rw [Bool.not_eq_true] at hlive2
        simp only [hkeya, hlive2, Bool.and_false]
        left
        rw [List.find?_eq_none]
        intro x hx hpx
        have hxl : x ∈ l := (List.mem_filter.mp hx).1
        rw [Bool.and_eq_true] at hpx
        have hxkey : (x.key == key) = true := hpx.1
        rw [beq_iff_eq] at hxkey hkeya
        exact hnd.1 ((hkeya.trans hxkey.symm) ▸ List.mem_map_of_mem Entry.key hxl)
    · rw [Bool.not_eq_true] at hpa
      simp only [hpa] at h
      have hrec := ih hnd.2 h
      rw [cleanupExpired, List.filter_cons]
      by_cases hlive1 : (!decide (a.timestamp + a.ttl < now)) = true
      · rw [if_pos hlive1]
        rw [liveRow, List.find?_cons]
        have hkeya : (a.key == key) = false := by
          rcases Bool.and_eq_false_iff.mp hpa with hk | hl1
          · exact hk
          · rw [hl1] at hlive1
            cases hlive1
        simp only [hkeya, Bool.false_and]
        exact hrec
      · rw [Bool.not_eq_true] at hlive1
        rw [if_neg (by rw [hlive1]; exact Bool.false_ne_true)]
        exact hrec

theorem minTimestamp_foldl_aux (l : List (Entry α)) (t : Nat) :
    ∃ r, List.foldl
        (fun acc e =>
          match acc with
          | none => some e.timestamp
          | some t => some (min t e.timestamp))
        (some t) l = some r
      ∧ (r = t ∨ ∃ e ∈ l, e.timestamp = r) ∧ r ≤ t
      ∧ ∀ e ∈ l, r ≤ e.timestamp := by
  induction l generalizing t with
  | nil => exact ⟨t, rfl, Or.inl rfl, Nat.le_refl _, by intro e he; cases he⟩
  | cons b l ih =>
    obtain ⟨r, hr, hmem, hle, hall⟩ := ih (min t b.timestamp)
    refine ⟨r, hr, ?_, by omega, ?_⟩
    · rcases hmem with rfl | ⟨e, he, hteq⟩
      · rcases Nat.le_total t b.timestamp with hmin | hmin
        · exact Or.inl (by omega)
        · exact Or.inr ⟨b, List.mem_cons_self _ _, by omega⟩
      · exact Or.inr ⟨e, List.mem_cons_of_mem _ he, hteq⟩
    · intro e he
      rcases List.mem_cons.mp he with rfl | h'
      · have : min t e.timestamp ≥ r := hle
        omega
      · exact hall e h'

/-- `MIN(timestamp)`: `NULL` exactly on the empty table, otherwise an
attained minimum. -/
theorem minTimestamp_spec (st : CacheState α) :
    (minTimestamp st = none ↔ st = [])
    ∧ ∀ ts, minTimestamp st = some ts →
        (∃ e ∈ st, e.timestamp = ts) ∧ ∀ e ∈ st, ts ≤ e.timestamp := by
  cases st with
  | nil => exact ⟨by simp [minTimestamp], by intro ts h; simp [minTimestamp] at h⟩
  | cons a l =>
    obtain ⟨r, hr, hmem, hle, hall⟩ := minTimestamp_foldl_aux l a.timestamp
    have hmt : minTimestamp (a :: l) = some r := by
      simpa [minTimestamp] using hr
    constructor
    · rw [hmt]
      constructor
      · intro h; cases h
      · intro h; cases h
    · intro ts h
      rw [hmt] at h
      injection h with h2
      subst h2
      constructor
      · rcases hmem with rfl | ⟨e, he, hteq⟩
        · exact ⟨a, List.mem_cons_self _ _, rfl⟩
        · exact ⟨e, List.mem_cons_of_mem _ he, hteq⟩
      · intro e he
        rcases List.mem_cons.mp he with rfl | h'
        · exact hle
        · exact hall e h'

/-- If a run of the network phase whose storage works reaches the cache
write (it returns `ok`), then the same run with a failing `cache.set` throws
the wrapped `NetworkError` carrying the `CacheError` message, leaving the
table untouched.  The two oracles agree on everything but `setFails`. -/
theorem fetchNetworkPhase_setFails (cfg : FetchConfig) (o o2 : FetchOracle)
    (hnet : o2.net = o.net) (hdz : o2.decompressZstd = o.decompressZstd)
    (hdec : o2.decodeUtf8 = o.decodeUtf8) (hpj : o2.parseJson = o.parseJson)
    (now : Nat) (c : String) (v : Option String) (url : String)
    (st1 : CacheState Json) (m : String) (d : Json)
    (hset : o.setFails = some m) (_hset2 : o2.setFails = none)
    (hok : (fetchNetworkPhase cfg o2 now c v url st1).result = .ok (d, false)) :
    fetchNetworkPhase cfg o now c v url st1
      = ⟨.error (.networkError url none none
          (some (cacheErrorMessage "set" ("Failed to set key '" ++ url ++ "': " ++ m)))),
        st1, true⟩ := by
  unfold fetchNetworkPhase at hok ⊢
  rw [hnet, hdz, hdec, hpj] at hok
  rcases hn : o.net with _ | m2 | ⟨status, stx, enc, body, tr⟩ <;> rw [hn] at hok
  · simp at hok
  · simp at hok
  · dsimp only at hok ⊢
    by_cases h404 : status = 404
    · rw [if_pos h404] at hok
      simp at hok
    · rw [if_neg h404] at hok ⊢
      by_cases hokst : (!statusOk status) = true
      · rw [if_pos hokst] at hok
        simp at hok
      · rw [if_neg hokst] at hok ⊢
        rcases hpp : fetchParsePayload o.decompressZstd o.decodeUtf8 o.parseJson
            url enc body tr with e | d0 <;> rw [hpp] at hok
        · simp at hok
        · by_cases hval : (!d0.isTruthy || !d0.typeofIsObject) = true
          · simp [hval] at hok
          · simp [hval, hset]

/-! ## Claims -/

/-- C1, counterexample: the claim says the SELECT-only gate is enforced *at
the `KeyValueStore` query operation* as well, failing with a
`QueryRejected`-kind error and leaving entries untouched.  It is not:
`cache.query` of `src/cache.ts` applies no check of its own, so the
statement `DELETE FROM cache` handed to the engine *succeeds* (no rejection)
and deletes every row — here a store holding one live entry ends empty. -/
theorem c1_counterexample :
    queryOp execDeleteAll 0 "DELETE FROM cache"
        [(⟨"k", "v", 0, 1000⟩ : Entry String)]
      = (.ok ([] : List Unit), ([] : CacheState String))
    ∧ ([(⟨"k", "v", 0, 1000⟩ : Entry String)] : CacheState String) ≠ [] :=
  ⟨rfl, by decide⟩

/-- C1, amended: the SELECT-only gate exists only at the fetcher layer.
`queryCacheDb` rejects — with a plain `Error` (a different class from the
storage `CacheError`, hence distinguishable) — every statement that is empty
or does not begin with the case-insensitive token `SELECT` after trimming
whitespace, without touching the store or invoking the engine; every other
statement is passed unchanged to `cache.query`, which applies no gate of its
own. -/
theorem c1_select_gate_only_at_fetcher {α ρ : Type}
    (exec : String → CacheState α → Except String (List ρ × CacheState α))
    (now : Nat) (sql : String) (st : CacheState α) :
    ((sql = "" ∨ jsStartsWith (jsToUpperCase (jsTrim sql)) "SELECT" = false) →
      queryCacheDb exec now sql st
        = (.error (.plainError "Only SELECT queries are allowed for safety"), st))
    ∧ (sql ≠ "" → jsStartsWith (jsToUpperCase (jsTrim sql)) "SELECT" = true →
      queryCacheDb exec now sql st = queryOp exec now sql st) := by
  constructor
  · intro h
    have hc : (decide (sql = "") || !jsStartsWith (jsToUpperCase (jsTrim sql)) "SELECT")
        = true := by
      rcases h with h | h <;> simp [h]
    rw [queryCacheDb, if_pos hc]
  · intro h1 h2
    have hc : ¬((decide (sql = "") || !jsStartsWith (jsToUpperCase (jsTrim sql)) "SELECT")
        = true) := by
      simp [h1, h2]
    rw [queryCacheDb, if_neg hc]

/-- C1, witness: the gate at the fetcher layer rejects `"  delete from
cache"` leaving the store untouched, and passes `"SELECT 1"` through to
`cache.query`. -/
theorem c1_select_gate_witness :
    queryCacheDb execDeleteAll 0 "  delete from cache"
        [(⟨"k", "v", 0, 1000⟩ : Entry String)]
      = ((.error (.plainError "Only SELECT queries are allowed for safety") :
            Except JsErr (List Unit)),
          [(⟨"k", "v", 0, 1000⟩ : Entry String)])
    ∧ queryCacheDb execDeleteAll 0 "SELECT 1" [(⟨"k", "v", 0, 1000⟩ : Entry String)]
        = queryOp execDeleteAll 0 "SELECT 1" [(⟨"k", "v", 0, 1000⟩ : Entry String)] :=
  ⟨(c1_select_gate_only_at_fetcher execDeleteAll 0 "  delete from cache" _).1
      (Or.inr (by decide)),
    (c1_select_gate_only_at_fetcher execDeleteAll 0 "SELECT 1" _).2
      (by decide) (by decide)⟩

/-- C2, counterexample: the claim says a read at any `now ≥ createdAt +
ttlMillis` returns absent.  At the boundary `now = createdAt + ttlMillis`
the code still returns the stored value (both expiry tests in
`src/cache.ts` are strict: `timestamp + ttl < now` and
`now > timestamp + ttl`): an entry written at 0 with TTL 100 is returned by
a read at time 100. -/
theorem c2_counterexample :
    (getWithMetadata 100 "k" (setValue 0 100 "k" "v" 100 ([] : CacheState String))).data
      = some "v"
    ∧ 0 + 100 ≤ 100 :=
  ⟨rfl, by decide⟩

/-- C2, amended: an entry written by `set(key, value, ttl)` at time
`createdAt` is returned by `getWithMetadata`/`get` at time `now` — as a hit,
with the stored value — iff `now ≤ createdAt + ttl` (non-strict liveness;
dead entries are swept by `cleanupExpired` and the looked-up key is also
dropped by the per-key expiry test, so a reader never sees a strictly
expired value). -/
theorem c2_ttl_liveness (st : CacheState α) (key : String) (v : α)
    (ttl createdAt M now : Nat) :
    (getWithMetadata now key (setValue createdAt M key v ttl st)).data
        = (if now ≤ createdAt + ttl then some v else none)
    ∧ (getWithMetadata now key (setValue createdAt M key v ttl st)).isHit
        = decide (now ≤ createdAt + ttl) := by
  rw [getWithMetadata_data, getWithMetadata_isHit, liveRow_setValue_same]
  by_cases h : now ≤ createdAt + ttl
  · rw [if_neg (by omega), if_pos h]
    simp [h]
  · rw [if_pos (by omega), if_neg h]
    simp [h]

/-- C3, counterexample: the claim quantifies over every configured maximum
size `M`; with `M = 0` (accepted by `createCache`) the store is "at
capacity" while empty, the oldest-row lookup finds nothing to evict, and the
insert still goes through, leaving 1 > 0 entries. -/
theorem c3_counterexample :
    ¬((setValue 0 0 "k" "v" 1000 ([] : CacheState String)).length ≤ 0) := by
  decide

/-- C3, amended: for every configured maximum size `M ≥ 1` and every
sequence of store operations starting from a fresh (empty) store, the entry
count immediately after any successful `set` is at most `M` — enforced by
evicting the single oldest entry (by `createdAt`) before the insert when the
store is at or above capacity. -/
theorem c3_capacity_bound {M : Nat} (hM : 1 ≤ M) (ops : List (CacheOp α))
    (now : Nat) (key : String) (v : α) (ttl : Nat) :
    (setValue now M key v ttl (runOps M ops)).length ≤ M :=
  setValue_length_le hM (runOps_length_le hM ops) now key v ttl

/-- C3, witness: with `M = 3`, after the sequence that inserts `a`, `b`,
`c`, a fourth insert `d` leaves at most 3 entries. -/
theorem c3_capacity_witness :
    (setValue 4 3 "d" "w" 50
        (runOps 3 [CacheOp.set 1 "a" "x" 100, CacheOp.set 2 "b" "y" 100,
          CacheOp.set 3 "c" "z" 100])).length ≤ 3 :=
  c3_capacity_bound (by decide)
    [CacheOp.set 1 "a" "x" 100, CacheOp.set 2 "b" "y" 100, CacheOp.set 3 "c" "z" 100]
    4 "d" "w" 50

/-- C4, counterexample: the claim says `stats` aggregates *after an expiry
sweep*, counting only live entries.  `getStats` of `src/cache.ts` runs no
`cleanupExpired` (and reads no clock): with one entry written at time 0 with
TTL 100, it reports `totalEntries = 1`, while the same aggregate over the
swept table at time 1000 (where the entry is dead) is 0. -/
theorem c4_counterexample :
    (getStats String.length [(⟨"k", "v", 0, 100⟩ : Entry String)]).totalEntries = 1
    ∧ (getStats String.length
        (cleanupExpired 1000 [(⟨"k", "v", 0, 100⟩ : Entry String)])).totalEntries = 0 :=
  ⟨rfl, rfl⟩

/-- C4, amended: `getStats` aggregates over all physically stored entries,
with no expiry sweep: `totalEntries` is the row count, `totalSize` sums the
serialized payload lengths of all rows, and `oldestEntry` is the minimum
`createdAt` over all rows — reported as `null` when the store is empty (SQL
`NULL`) and also when that minimum is the (falsy) timestamp 0. -/
theorem c4_stats_no_sweep (lenOf : α → Nat) (st : CacheState α) :
    (getStats lenOf st).totalEntries = st.length
    ∧ (getStats lenOf st).totalSize = (st.map (fun e => lenOf e.data)).sum
    ∧ ((getStats lenOf st).oldestEntry = none ↔ (st = [] ∨ minTimestamp st = some 0))
    ∧ (∀ ts, (getStats lenOf st).oldestEntry = some ts →
        (∃ e ∈ st, e.timestamp = ts) ∧ ∀ e ∈ st, ts ≤ e.timestamp) := by
  obtain ⟨hnone, hsome⟩ := minTimestamp_spec st
  have hOE : (getStats lenOf st).oldestEntry
      = (match minTimestamp st with
         | none => none
         | some t => if t = 0 then none else some t) := rfl
  refine ⟨rfl, ?_, ?_, ?_⟩
  · simp only [getStats]
    exact (foldl_add_init (fun e => lenOf e.data) st 0).trans (Nat.zero_add _)
  · rw [hOE]
    cases hmt : minTimestamp st with
    | none =>
      dsimp only
      constructor
      · intro _
        exact Or.inl (hnone.mp hmt)
      · intro _
        rfl
    | some ts0 =>
      dsimp only
      by_cases h0 : ts0 = 0
      · rw [if_pos h0]
        constructor
        · intro _
          exact Or.inr (by rw [h0])
        · intro _
          rfl
      · rw [if_neg h0]
        constructor
        · intro h
          cases h
        · intro h
          rcases h with rfl | h
          · simp [minTimestamp] at hmt
          · injection h with h2
            exact absurd h2 h0
  · intro ts h
    rw [hOE] at h
    cases hmt : minTimestamp st with
    | none =>
      rw [hmt] at h
      cases h
    | some ts0 =>
      rw [hmt] at h
      dsimp only at h
      by_cases h0 : ts0 = 0
      · rw [if_pos h0] at h
        cases h
      · rw [if_neg h0] at h
        injection h with h2
        exact h2 ▸ hsome ts0 hmt

/-- C4, witness: the amended statement evaluated on a one-row store. -/
theorem c4_stats_witness :
    (getStats String.length [(⟨"k", "ab", 5, 10⟩ : Entry String)]).totalSize = 2
    ∧ (getStats String.length [(⟨"k", "ab", 5, 10⟩ : Entry String)]).oldestEntry = some 5 := by
  have h := c4_stats_no_sweep String.length [(⟨"k", "ab", 5, 10⟩ : Entry String)]
  exact ⟨h.2.1.trans (by decide), rfl⟩

/-- C5, counterexample: the claim says any two tuples that differ in a
parameter being present versus absent produce distinct keys.  They do not:
an absent version and the explicit version `"latest"` render identically
(`version || "latest"`). -/
theorem c5_counterexample :
    buildJsonUrl "serde" none none none = buildJsonUrl "serde" (some "latest") none none
    ∧ (none : Option String) ≠ some "latest" :=
  ⟨rfl, by decide⟩

/-- C5, amended: the canonical key is computed by a pure function (two
computations on the same tuple give the same string), and on *valid*
parameter tuples — crate, version and target containing no `/`, version and
target non-empty when present, version different from the `"latest"`
sentinel, format version nonzero when present — two tuples produce the same
key iff they are equal; the falsy/sentinel cases excluded here genuinely
collide (`version || "latest"`, `if (target)`, `if (formatVersion)`). -/
theorem c5_canonical_key_deterministic_injective
    (c c' : String) (v v' t t' : Option String) (f f' : Option Nat)
    (hc : okCrate c) (hc' : okCrate c') (hv : okVersion v) (hv' : okVersion v')
    (ht : okTarget t) (ht' : okTarget t') (hf : okFormat f) (hf' : okFormat f') :
    buildJsonUrl c v t f = buildJsonUrl c v t f
    ∧ (buildJsonUrl c v t f = buildJsonUrl c' v' t' f'
        ↔ (c = c' ∧ v = v' ∧ t = t' ∧ f = f')) := by
  refine ⟨rfl, ?_, ?_⟩
  · exact buildJsonUrl_inj hc hc' hv hv' ht ht' hf hf'
  · rintro ⟨rfl, rfl, rfl, rfl⟩
    rfl

/-- C5, witness: two concrete valid tuples differing only in the target
being present versus absent have different keys. -/
theorem c5_canonical_key_witness :
    buildJsonUrl "tokio" (some "1.38.0") (some "x86_64-pc-windows-msvc") (some 30)
      ≠ buildJsonUrl "tokio" (some "1.38.0") none (some 30) := by
  intro h
  have hiff := (c5_canonical_key_deterministic_injective
      "tokio" "tokio" (some "1.38.0") (some "1.38.0")
      (some "x86_64-pc-windows-msvc") none (some 30) (some 30)
      (show '/' ∉ "tokio".data by decide) (show '/' ∉ "tokio".data by decide)
      (show '/' ∉ "1.38.0".data ∧ "1.38.0" ≠ "" ∧ "1.38.0" ≠ "latest" by decide)
      (show '/' ∉ "1.38.0".data ∧ "1.38.0" ≠ "" ∧ "1.38.0" ≠ "latest" by decide)
      (show '/' ∉ "x86_64-pc-windows-msvc".data ∧ "x86_64-pc-windows-msvc" ≠ "" by decide)
      trivial (show (30 : Nat) ≠ 0 by decide) (show (30 : Nat) ≠ 0 by decide)).2
  obtain ⟨-, -, hteq, -⟩ := hiff.mp h
  cases hteq

/-- C6 (confirmed): with working storage (`getFails = none`) and the SQLite
key-uniqueness invariant, one fetch call writes the cache exactly once iff
the whole network pipeline succeeds: on `ok (d, fromCache := false)` the
successor table is exactly one `setValue` over the swept table; on a cache
hit the table is only swept; and on every failure the table is exactly the
swept input — so nothing was created or modified under the key, and a
second identical call (at any time, with any working oracle) uses the
network again. -/
theorem c6_no_cache_write_on_failure (cfg : FetchConfig) (o : FetchOracle) (now : Nat)
    (c : String) (v t : Option String) (f : Option Nat) (st : CacheState Json)
    (hget : o.getFails = none) (hnd : nodupKeys st) :
    (∀ e, (fetchCrateJsonWithStatus cfg o now c v t f st).result = .error e →
        (fetchCrateJsonWithStatus cfg o now c v t f st).state = cleanupExpired now st
        ∧ ∀ (now2 : Nat) (o2 : FetchOracle), o2.getFails = none →
            (fetchCrateJsonWithStatus cfg o2 now2 c v t f
                (fetchCrateJsonWithStatus cfg o now c v t f st).state).networkUsed = true)
    ∧ (∀ d, (fetchCrateJsonWithStatus cfg o now c v t f st).result = .ok (d, false) →
        (fetchCrateJsonWithStatus cfg o now c v t f st).state
          = setValue now cfg.maxCacheSize (buildJsonUrl c v t f) d cfg.cacheTtl
              (cleanupExpired now st))
    ∧ (∀ d, (fetchCrateJsonWithStatus cfg o now c v t f st).result = .ok (d, true) →
        (fetchCrateJsonWithStatus cfg o now c v t f st).state = cleanupExpired now st) := by
  rcases fetch_split cfg o now c v t f st hget with
    ⟨e, hl, htr, hF⟩ | ⟨hmiss, hF⟩
  · refine ⟨?_, ?_, ?_⟩
    · intro e0 hres
      rw [hF] at hres
      simp at hres
    · intro d hres
      rw [hF] at hres
      simp at hres
    · intro d hres
      rw [hF]
  · rcases fetchNetworkPhase_split cfg o now c v (buildJsonUrl c v t f)
        (cleanupExpired now st) with ⟨e0, hN⟩ | ⟨d0, htr0, hobj0, hs0, hN⟩
    · refine ⟨?_, ?_, ?_⟩
      · intro e1 hres
        have hstate : (fetchCrateJsonWithStatus cfg o now c v t f st).state
            = cleanupExpired now st := by
          rw [hF, hN]
        refine ⟨hstate, ?_⟩
        intro now2 o2 hget2
        rw [hstate]
        rcases fetch_split cfg o2 now2 c v t f (cleanupExpired now st) hget2 with
          ⟨e2, hl2, htr2, hF2⟩ | ⟨hmiss2, hF2⟩
        · exfalso
          rcases hmiss with hnone | ⟨e1s, hl1, hfalse1⟩
          · rw [liveRow_cleanup_none hnone] at hl2
            cases hl2
          · rcases liveRow_cleanup_of_some hnd hl1 with h2 | h2
            · rw [h2] at hl2
              cases hl2
            · rw [h2] at hl2
              injection hl2 with h3
              rw [← h3] at htr2
              rw [htr2] at hfalse1
              cases hfalse1
        · rw [hF2]
          exact fetchNetworkPhase_networkUsed cfg o2 now2 c v (buildJsonUrl c v t f) _
      · intro d hres
        rw [hF, hN] at hres
        simp at hres
      · intro d hres
        rw [hF, hN] at hres
        simp at hres
    · refine ⟨?_, ?_, ?_⟩
      · intro e1 hres
        rw [hF, hN] at hres
        simp at hres
      · intro d hres
        rw [hF, hN] at hres
        simp only [Except.ok.injEq, Prod.mk.injEq, and_true] at hres
        rw [hF, hN, hres]
      · intro d hres
        rw [hF, hN] at hres
        simp at hres

/-- C6, witness: a fetch that fails with `CrateNotFound` (HTTP 404) on an
empty store leaves the store empty (only swept), and an identical second
call uses the network again. -/
theorem c6_witness :
    (fetchCrateJsonWithStatus {} (mkOracle (.response 404 "Not Found" none [] (.ok ""))
        (fun _ => .error "x")) 0 "serde" none none none []).state
      = cleanupExpired 0 []
    ∧ (fetchCrateJsonWithStatus {} (mkOracle (.response 404 "Not Found" none [] (.ok ""))
        (fun _ => .error "x")) 5 "serde" none none none
        ((fetchCrateJsonWithStatus {} (mkOracle (.response 404 "Not Found" none [] (.ok ""))
            (fun _ => .error "x")) 0 "serde" none none none []).state)).networkUsed
      = true := by
  have h := (c6_no_cache_write_on_failure {}
      (mkOracle (.response 404 "Not Found" none [] (.ok "")) (fun _ => .error "x"))
      0 "serde" none none none [] rfl List.nodup_nil).1
      (.crateNotFoundError "serde" none) rfl
  exact ⟨h.1, h.2 5 (mkOracle (.response 404 "Not Found" none [] (.ok ""))
      (fun _ => .error "x")) rfl⟩

/-- C7 (confirmed): if a live row for the canonical key exists at call time
(and, as for every value the fetcher itself caches, its payload is a truthy
JSON document), the fetch returns `{data := the cached value, fromCache :=
true}` immediately: no network use, and the only state effect is the expiry
sweep. -/
theorem c7_cache_hit_no_network (cfg : FetchConfig) (o : FetchOracle) (now : Nat)
    (c : String) (v t : Option String) (f : Option Nat) (st : CacheState Json)
    (e : Entry Json) (hget : o.getFails = none)
    (hrow : getRow (buildJsonUrl c v t f) st = some e)
    (hlive : now ≤ e.timestamp + e.ttl)
    (htruthy : e.data.isTruthy = true) :
    fetchCrateJsonWithStatus cfg o now c v t f st
      = ⟨.ok (e.data, true), cleanupExpired now st, false⟩ := by
  have hl : liveRow now (buildJsonUrl c v t f) st = some e := by
    rw [liveRow]
    refine find?_conj_of_find? hrow ?_
    simp only [Bool.not_eq_true', decide_eq_false_iff_not]
    omega
  rcases fetch_split cfg o now c v t f st hget with
    ⟨e2, hl2, htr2, hF⟩ | ⟨hmiss, hF⟩
  · rw [hl] at hl2
    injection hl2 with h2
    rw [← h2] at hF
    exact hF
  · exfalso
    rcases hmiss with hnone | ⟨e1, hl1, hfalse⟩
    · rw [hl] at hnone
      cases hnone
    · rw [hl] at hl1
      injection hl1 with h2
      rw [← h2] at hfalse
      rw [htruthy] at hfalse
      cases hfalse

/-- C7, witness: with a live cached document under the canonical key for
`serde`, the fetch returns it as a cache hit without consulting the network
(the oracle would abort if consulted). -/
theorem c7_witness :
    fetchCrateJsonWithStatus {} (mkOracle .aborted (fun _ => .error "x")) 50
        "serde" none none none
        [⟨"https://docs.rs/crate/serde/latest/json", Json.obj [], 0, 100⟩]
      = ⟨.ok (Json.obj [], true),
          cleanupExpired 50
            [⟨"https://docs.rs/crate/serde/latest/json", Json.obj [], 0, 100⟩],
          false⟩ :=
  c7_cache_hit_no_network {} (mkOracle .aborted (fun _ => .error "x")) 50
    "serde" none none none
    [⟨"https://docs.rs/crate/serde/latest/json", Json.obj [], 0, 100⟩]
    ⟨"https://docs.rs/crate/serde/latest/json", Json.obj [], 0, 100⟩
    rfl rfl (by decide) rfl

/-- C8 (confirmed): when a `set` happens with the store at or above a
positive configured maximum, the single entry removed besides the key being
written is exactly the `oldestRow` — a stored row of minimal `createdAt`
(ties to the earliest row) — and every other previously present row is
still retrievable by its key afterwards. -/
theorem c8_evicts_single_oldest (M : Nat) (st : CacheState α) (now : Nat)
    (key : String) (v : α) (ttl : Nat)
    (hM : 1 ≤ M) (hcap : M ≤ st.length) (hnd : nodupKeys st) :
    ∃ o, oldestRow st = some o
      ∧ o ∈ st ∧ (∀ e ∈ st, o.timestamp ≤ e.timestamp)
      ∧ setValue now M key v ttl st
          = deleteRow key (deleteRow o.key st) ++ [⟨key, v, now, ttl⟩]
      ∧ ∀ e ∈ st, e.key ≠ o.key → e.key ≠ key →
          getRow e.key (setValue now M key v ttl st) = some e := by
  have hne : st ≠ [] := by
    intro h
    rw [h] at hcap
    simp at hcap
    omega
  obtain ⟨o, ho, homem, hmin⟩ := oldestRow_spec st hne
  have hsv : setValue now M key v ttl st
      = deleteRow key (deleteRow o.key st) ++ [⟨key, v, now, ttl⟩] := by
    simp only [setValue]
    rw [if_pos (by omega : st.length ≥ M), ho]
  refine ⟨o, ho, homem, hmin, hsv, ?_⟩
  intro e he hek hekey
  rw [hsv]
  have he1 : e ∈ deleteRow o.key st := by
    rw [deleteRow, List.mem_filter]
    exact ⟨he, by simp [hek]⟩
  have he2 : e ∈ deleteRow key (deleteRow o.key st) := by
    rw [deleteRow, List.mem_filter]
    exact ⟨he1, by simp [hekey]⟩
  have hnd2 : nodupKeys (deleteRow key (deleteRow o.key st)) :=
    nodupKeys_sublist ((List.filter_sublist _).trans (List.filter_sublist _)) hnd
  exact find?_append_of_some (getRow_of_mem_nodup hnd2 he2)

/-- C8, witness: with `maxSize = 3` and rows `a`, `b`, `c` (timestamps 1, 2,
3), inserting `d` evicts exactly `a`, and `b`, `c` stay retrievable. -/
theorem c8_witness :
    ∃ o, oldestRow
        [(⟨"a", "x", 1, 100⟩ : Entry String), ⟨"b", "y", 2, 100⟩, ⟨"c", "z", 3, 100⟩]
        = some o
      ∧ o ∈ [(⟨"a", "x", 1, 100⟩ : Entry String), ⟨"b", "y", 2, 100⟩, ⟨"c", "z", 3, 100⟩]
      ∧ (∀ e ∈ [(⟨"a", "x", 1, 100⟩ : Entry String), ⟨"b", "y", 2, 100⟩,
            ⟨"c", "z", 3, 100⟩], o.timestamp ≤ e.timestamp)
      ∧ setValue 4 3 "d" "w" 50
            [(⟨"a", "x", 1, 100⟩ : Entry String), ⟨"b", "y", 2, 100⟩, ⟨"c", "z", 3, 100⟩]
          = deleteRow "d" (deleteRow o.key
              [(⟨"a", "x", 1, 100⟩ : Entry String), ⟨"b", "y", 2, 100⟩, ⟨"c", "z", 3, 100⟩])
            ++ [⟨"d", "w", 4, 50⟩]
      ∧ ∀ e ∈ [(⟨"a", "x", 1, 100⟩ : Entry String), ⟨"b", "y", 2, 100⟩,
            ⟨"c", "z", 3, 100⟩], e.key ≠ o.key → e.key ≠ "d" →
          getRow e.key (setValue 4 3 "d" "w" 50
            [(⟨"a", "x", 1, 100⟩ : Entry String), ⟨"b", "y", 2, 100⟩, ⟨"c", "z", 3, 100⟩])
            = some e :=
  c8_evicts_single_oldest 3
    [(⟨"a", "x", 1, 100⟩ : Entry String), ⟨"b", "y", 2, 100⟩, ⟨"c", "z", 3, 100⟩]
    4 "d" "w" 50 (by decide) (by decide)
    (show (List.map Entry.key
        [(⟨"a", "x", 1, 100⟩ : Entry String), ⟨"b", "y", 2, 100⟩,
          ⟨"c", "z", 3, 100⟩]).Nodup by decide)

set_option maxRecDepth 4096 in
/-- C9, counterexample: the claim says the parse error never carries the
full offending text.  The `JSONParseError` class stores the full text in its
`rawData` field (`this.rawData = rawData`): a fetch of a 300-character
non-JSON body produces an error whose `rawData` is the entire 300-character
body, beyond any 200-character preview. -/
theorem c9_counterexample :
    (fetchCrateJsonWithStatus {} (mkOracle (.response 200 "OK" none [] (.ok longRaw))
        (fun _ => .error "Unexpected token")) 0 "serde" none none none []).result
      = .error (.jsonParseError longRaw "Unexpected token"
          (some "https://docs.rs/crate/serde/latest/json"))
    ∧ longRaw.length = 300 :=
  ⟨rfl, by decide⟩

/-- C9, amended: whenever a fetch fails with a `JSONParseError` carrying the
offending text `raw`, the error *context* is bounded: its `dataPreview` is
at most 203 characters — `raw` itself when at most 200 characters, otherwise
the first 200 characters followed by `"..."` — and its `dataLength` is the
length of the full text; the full text itself is retained only in the
`rawData` field of the error object. -/
theorem c9_bounded_preview (cfg : FetchConfig) (o : FetchOracle) (now : Nat)
    (c : String) (v t : Option String) (f : Option Nat) (st : CacheState Json)
    (raw msg : String) (u : Option String)
    (_hres : (fetchCrateJsonWithStatus cfg o now c v t f st).result
        = .error (.jsonParseError raw msg u)) :
    (jsonParseErrorDataPreview raw).length ≤ 203
    ∧ jsonParseErrorDataLength raw = raw.length
    ∧ (raw.length ≤ 200 → jsonParseErrorDataPreview raw = raw)
    ∧ (200 < raw.length → jsonParseErrorDataPreview raw = jsTake raw 200 ++ "...") := by
  refine ⟨?_, rfl, ?_, ?_⟩
  · rw [jsonParseErrorDataPreview]
    by_cases h : raw.length > 200
    · rw [if_pos h, String.length_append]
      have h1 : (jsTake raw 200).length ≤ 200 := by
        show (raw.data.take 200).length ≤ 200
        rw [List.length_take]
        omega
      have h2 : ("..." : String).length = 3 := rfl
      omega
    · rw [if_neg h]
      omega
  · intro h
    rw [jsonParseErrorDataPreview, if_neg (by omega)]
  · intro h
    rw [jsonParseErrorDataPreview, if_pos (by omega)]

/-- C9, witness: the empty-body parse failure carries the empty preview. -/
theorem c9_witness :
    (jsonParseErrorDataPreview "").length ≤ 203 ∧ jsonParseErrorDataPreview "" = "" := by
  have h := c9_bounded_preview {} (mkOracle (.response 200 "OK" none [] (.ok ""))
      (fun _ => .error "x")) 0 "serde" none none none [] "" "Empty response body"
      (some "https://docs.rs/crate/serde/latest/json") rfl
  exact ⟨h.1, h.2.2.1 (by decide)⟩

/-- C10 (confirmed): a storage failure in the *initial* cache lookup happens
outside the `try` block and propagates unwrapped as `CacheError("get", ...)`
without any network use; a storage failure in the cache *write* after a
fully successful network pipeline is caught by the surrounding `catch`,
which does not recognize `CacheError` among the re-thrown classes and wraps
its message as `NetworkError(url, undefined, undefined, message)`. -/
theorem c10_cache_write_failure_wrapped (cfg : FetchConfig) (o : FetchOracle) (now : Nat)
    (c : String) (v t : Option String) (f : Option Nat) (st : CacheState Json) (m : String) :
    (o.getFails = some m →
      fetchCrateJsonWithStatus cfg o now c v t f st
        = ⟨.error (.cacheError "get"
            ("Failed to get key '" ++ buildJsonUrl c v t f ++ "': " ++ m)), st, false⟩)
    ∧ (∀ d, o.getFails = none → o.setFails = some m →
        (fetchCrateJsonWithStatus cfg { o with setFails := none } now c v t f st).result
          = .ok (d, false) →
        (fetchCrateJsonWithStatus cfg o now c v t f st).result
          = .error (.networkError (buildJsonUrl c v t f) none none
              (some (cacheErrorMessage "set"
                ("Failed to set key '" ++ buildJsonUrl c v t f ++ "': " ++ m))))) := by
  constructor
  · intro hg
    unfold fetchCrateJsonWithStatus
    rw [hg]
  · intro d hg hs hok
    have hg2 : ({ o with setFails := none } : FetchOracle).getFails = none := hg
    rcases fetch_split cfg { o with setFails := none } now c v t f st hg2 with
      ⟨e2, hl2, htr2, hF2⟩ | ⟨hmiss2, hF2⟩
    · rw [hF2] at hok
      simp at hok
    · rw [hF2] at hok
      rcases fetch_split cfg o now c v t f st hg with
        ⟨e1, hl1, htr1, hF1⟩ | ⟨hmiss1, hF1⟩
      · exfalso
        rcases hmiss2 with hnone | ⟨e2s, hl2s, hfalse2⟩
        · rw [hl1] at hnone
          cases hnone
        · rw [hl1] at hl2s
          injection hl2s with h3
          rw [← h3] at hfalse2
          rw [htr1] at hfalse2
          cases hfalse2
      · rw [hF1]
        have hwrap := fetchNetworkPhase_setFails cfg o { o with setFails := none }
          rfl rfl rfl rfl now c v (buildJsonUrl c v t f) (cleanupExpired now st)
          m d hs rfl hok
        rw [hwrap]

/-- C10, witness: concrete runs of both halves — a failing initial lookup
surfaces `CacheError("get", ...)` untouched, and a failing cache write after
a successful fetch surfaces as a wrapped `NetworkError`. -/
theorem c10_witness :
    fetchCrateJsonWithStatus {} { mkOracle (.response 200 "OK" none [] (.ok "x"))
          (fun _ => .ok (Json.obj [])) with getFails := some "io" }
        0 "serde" none none none []
      = ⟨.error (.cacheError "get"
          ("Failed to get key '" ++ buildJsonUrl "serde" none none none ++ "': " ++ "io")),
        [], false⟩
    ∧ (fetchCrateJsonWithStatus {} { mkOracle (.response 200 "OK" none [] (.ok "x"))
          (fun _ => .ok (Json.obj [])) with setFails := some "disk" }
        0 "serde" none none none []).result
      = .error (.networkError (buildJsonUrl "serde" none none none) none none
          (some (cacheErrorMessage "set"
            ("Failed to set key '" ++ buildJsonUrl "serde" none none none ++ "': " ++ "disk")))) := by
  constructor
  · exact (c10_cache_write_failure_wrapped {} _ 0 "serde" none none none [] "io").1 rfl
  · exact (c10_cache_write_failure_wrapped {} _ 0 "serde" none none none [] "disk").2
      (Json.obj []) rfl rfl rfl

/-- C8, counterexample: the claim says that whenever a `set` occurs with the
store at or above its configured maximum size, *exactly one* entry is
evicted.  With the accepted configuration `maxSize = 0` an empty store is
already at capacity (`0 ≥ 0`), yet the insert evicts nothing (there is no
oldest row), so zero — not one — entries are evicted. -/
theorem c8_counterexample :
    ([] : CacheState String).length ≥ 0
    ∧ setValue 0 0 "k" "v" 100 ([] : CacheState String)
        = [(⟨"k", "v", 0, 100⟩ : Entry String)] :=
  ⟨Nat.le_refl 0, rfl⟩
